import Mathlib

/-!
Verification of the per-connection protocol handler in `src/server.py`
(class `ClientHandler`): frame extraction from the byte stream,
message dispatch, the session state machine, file-sink handling,
Diffie-Hellman key receipt, and algorithm negotiation.

The Python handler is embedded shallowly: the mutable handler object
becomes the `Conn` structure, each method becomes a pure function from
`Conn` to `Conn` (plus its boolean result), and Python exceptions that
the source does not catch are made explicit in the `Res`/`HRes` result
types.  Third-party library calls (json.loads together with the fixed
field reads performed by the dispatcher, base64.b64decode,
load_pem_public_key, the DH exchange and HKDF) are supplied through the
`Ext` structure of external functions, since their implementations are
not part of this repository.
-/

namespace SecureComms

/-- The four session states of `server.py` (`STATE_CONNECT = 0` …). -/
def STATE_CONNECT : Nat := 0

/-- Constant `STATE_OPEN = 1` in `server.py`. -/
def STATE_OPEN : Nat := 1

/-- Constant `STATE_DATA = 2` in `server.py`. -/
def STATE_DATA : Nat := 2

/-- Constant `STATE_CLOSE = 3` in `server.py`. -/
def STATE_CLOSE : Nat := 3

/-- The buffer ceiling of `data_received`: `4096 * 1024 * 1024`. -/
def BUFLIMIT : Nat := 4096 * 1024 * 1024

/-- Messages the server writes to the transport via `_send`
(the JSON payloads of lines 134, 182, 270, 281 and 341 of `server.py`,
abstracted to their information content). -/
inductive Out where
  | dhInit (p g : Nat)
  | dhKex (pubKey : String)
  | okMsg
  | errMsg
  | cipherChosen (cipher mode sintese : Option String)
  deriving DecidableEq

/-- A minimal POSIX-style file system: the set of existing directories and
a map from paths to the byte contents of regular files.  `server.py`
touches it through `os.path.exists`, `os.mkdir`, `open(path, "wb")`,
`file.write` and `file.close`. -/
structure FS where
  dirs : List String
  files : List (String × List Nat)
  deriving DecidableEq

/-- Association-list lookup for `FS.files`. -/
def lookupF : List (String × List Nat) → String → Option (List Nat)
  | [], _ => none
  | (k, v) :: rest, key => if k = key then some v else lookupF rest key

/-- Association-list update (insert or replace) for `FS.files`. -/
def setF : List (String × List Nat) → String → List Nat → List (String × List Nat)
  | [], key, v => [(key, v)]
  | (k, w) :: rest, key, v =>
      if k = key then (k, v) :: rest else (k, w) :: setF rest key v

/-- Appending bytes to a file through an open handle (`file.write`). -/
def appendF (files : List (String × List Nat)) (key : String) (v : List Nat) :
    List (String × List Nat) :=
  match lookupF files key with
  | some w => setF files key (w ++ v)
  | none => setF files key v

/-- The parse outcome of one frame.  `json.loads` can raise (`badJson`,
caught at lines 109-114); a JSON value that is not an object with a
string `type` makes `message.get('type', "").upper()` raise an uncaught
AttributeError (`badShape`); otherwise the dispatcher's fixed field
reads produce one of the structured messages below. -/
inductive JMsg where
  /-- Tag `DH_KEY_EXCHANGE`: `message.get('data').get('pub_key')`.
  `none` means the `data` key is absent (so `.get` is called on `None`
  and raises); `some none` means `pub_key` is absent. -/
  | dh (pubKey : Option (Option String))
  /-- Tag `OPEN`: `none` when the message has no `file_name` key. -/
  | openM (fileName : Option String)
  /-- Tag `DATA`: `none` when the message has no `data` key. -/
  | dataM (payload : Option String)
  /-- Tag `CLOSE`. -/
  | closeM
  /-- Tag `NEGOTIATE` with its three optional candidate lists. -/
  | negotiate (ciphers modes sinteses : Option (List String))
  /-- Any other type tag; `none` records that the `type` key is absent
  entirely (then the log call `message['type']` raises KeyError). -/
  | invalid (typeVal : Option String)
  deriving DecidableEq

/-- Result of parsing one extracted frame. -/
inductive FrameVal where
  | badJson
  | badShape
  | msg (m : JMsg)
  deriving DecidableEq

/-- The external collaborators of the handler: JSON parsing plus the
dispatcher's fixed field reads, `base64.b64decode` (`none` = raises),
`load_pem_public_key` (`none` = raises on malformed PEM), and the
composition `private_key.exchange` followed by `HKDF(...).derive`
(`none` = the derivation step raises).  `p`, `g` and `pubPem` are the
connection's eagerly generated DH domain parameters and public value,
sent by `connection_made`. -/
structure Ext where
  parse : List Char → FrameVal
  b64 : String → Option (List Nat)
  loadPem : String → Option Nat
  derive : Nat → Option (List Nat)
  p : Nat
  g : Nat
  pubPem : String

/-- The per-connection handler state: the mutable fields of
`ClientHandler` (minus the input buffer, which `data_received` owns and
no other method touches), plus the transport and file system it acts
on. -/
structure Conn where
  state : Nat
  file : Option String
  file_name : Option String
  file_path : Option String
  storage_dir : String
  key : Option (List Nat)
  cipher : Option String
  mode : Option String
  hash_function : Option String
  transportOpen : Bool
  sent : List Out
  fs : FS
  deriving DecidableEq

/-- Result of `on_frame`: normal return, or a Python exception escaping
the method (the source has no catch-all around the dispatch). -/
inductive Res where
  | ret (c : Conn)
  | exc (c : Conn)
  deriving DecidableEq

/-- Result of one dispatched handler: an escaped exception, or the
boolean the handler returns together with the updated state. -/
inductive HRes where
  | exc (c : Conn)
  | ret (b : Bool) (c : Conn)
  deriving DecidableEq

/-- The session right after `connection_made`: `state = STATE_CONNECT`,
no file, and the two handshake messages (`DH_INIT`, then the server's
`DH_KEY_EXCHANGE`) already sent by `diffie_hellman_init` and
`diffie_hellman_gen_Y`. -/
def initialConn (ext : Ext) (stdir : String) (fs0 : FS) : Conn :=
  { state := STATE_CONNECT
    file := none
    file_name := none
    file_path := none
    storage_dir := stdir
    key := none
    cipher := none
    mode := none
    hash_function := none
    transportOpen := true
    sent := [Out.dhInit ext.p ext.g, Out.dhKex ext.pubPem]
    fs := fs0 }

/-- ASCII model of the regex class `\w` (word characters). -/
def isWordChar (ch : Char) : Bool := ch.isAlphanum || ch = '_'

/-- Models `re.sub(r'[^\w\.]', '', file_name)` — drop every character that is
neither a word character nor a literal dot (line 166). -/
def sanitize (s : String) : String :=
  String.mk (s.data.filter (fun ch => isWordChar ch || ch = '.'))

/-- Models `os.path.join` for POSIX paths as used at line 167. -/
def osPathJoin (a b : String) : String :=
  if b.data.take 1 = ['/'] then b
  else if a = "" then b
  else if a.data.getLast? = some '/' then a ++ b
  else a ++ "/" ++ b

/-- Models `open(path, "wb")` under a directory `dir` with a final
component `name` containing no separator: the OS creates or truncates
the regular file iff the parent directory exists and the component
actually names a regular file (not empty, not `.` or `..`, which denote
directories); otherwise `open` raises, which `process_open` catches. -/
def fsOpen (fs : FS) (dir name : String) : Option FS :=
  if dir ∈ fs.dirs ∧ ¬ (name = "" ∨ name = "." ∨ name = "..") then
    some { fs with files := setF fs.files (osPathJoin dir name) [] }
  else none

/-- Models `ClientHandler.process_open` (lines 147-187): reject outside
`STATE_CONNECT`; reject a missing `file_name`; sanitize the name; join
it under `self.storage_dir`; ensure the literal directory `"files"`
exists (note: the source hard-codes `"files"` here, not
`self.storage_dir`); open the file; send `OK`; move to `STATE_OPEN`. -/
def process_open (c : Conn) (fn : Option String) : Bool × Conn :=
  if c.state ≠ STATE_CONNECT then (false, c)
  else
    match fn with
    | none => (false, c)
    | some fn0 =>
      let file_name := sanitize fn0
      let file_path := osPathJoin c.storage_dir file_name
      let fs1 := if "files" ∈ c.fs.dirs then c.fs
                 else { c.fs with dirs := "files" :: c.fs.dirs }
      match fsOpen fs1 c.storage_dir file_name with
      | none => (false, { c with fs := fs1 })
      | some fs2 =>
        (true, { c with
                  fs := fs2
                  file := some file_path
                  sent := c.sent ++ [Out.okMsg]
                  file_name := some file_name
                  file_path := some file_path
                  state := STATE_OPEN })

/-- Models `ClientHandler.process_data` (lines 190-230): on `STATE_OPEN` move
to `STATE_DATA`; on `STATE_DATA` continue; otherwise reject.  Then a
missing `data` field or a base64 decode failure or a write failure
(including `self.file` being `None`) returns `False`; otherwise the
decoded bytes are appended to the open file and flushed. -/
def process_data (ext : Ext) (c : Conn) (p : Option String) : Bool × Conn :=
  if c.state = STATE_OPEN ∨ c.state = STATE_DATA then
    let c1 := if c.state = STATE_OPEN then { c with state := STATE_DATA } else c
    match p with
    | none => (false, c1)
    | some p0 =>
      match ext.b64 p0 with
      | none => (false, c1)
      | some bdata =>
        match c1.file with
        | none => (false, c1)
        | some path =>
          (true, { c1 with fs := { c1.fs with
                     files := appendF c1.fs.files path bdata } })
  else (false, c)

/-- Models `ClientHandler.process_close` (lines 233-250): close the transport,
close the file handle if any, enter `STATE_CLOSE`, return `True`. -/
def process_close (c : Conn) : Bool × Conn :=
  (true, { c with transportOpen := false, file := none, state := STATE_CLOSE })

/-- Models `ClientHandler.choose_algo` (lines 352-380): pick the cipher
(ChaCha20 over AES), then the mode (GCM over CBC), then the hash
function (SHA-512 over SHA-256), assigning `self.cipher`, `self.mode`,
`self.hash_function` as each category is decided and returning `False`
as soon as one category has no supported candidate. -/
def choose_algo (c : Conn) (ciphers modes hash_functions : List String) :
    Bool × Conn :=
  match (if "ChaCha20" ∈ ciphers then some "ChaCha20"
         else if "AES" ∈ ciphers then some "AES" else none) with
  | none => (false, c)
  | some ci =>
    let c1 := { c with cipher := some ci }
    match (if "GCM" ∈ modes then some "GCM"
           else if "CBC" ∈ modes then some "CBC" else none) with
    | none => (false, c1)
    | some mo =>
      let c2 := { c1 with mode := some mo }
      match (if "SHA-512" ∈ hash_functions then some "SHA-512"
             else if "SHA-256" ∈ hash_functions then some "SHA-256"
             else none) with
      | none => (false, c2)
      | some ha => (true, { c2 with hash_function := some ha })

/-- Models `ClientHandler.process_negotiate` (lines 312-350): reject outside
`STATE_CONNECT`; reject if any of the three candidate lists is absent;
run `choose_algo`; then send `CIPHER_CHOSEN` with the current
`self.cipher`, `self.mode`, `self.hash_function` regardless of the
result, and return `choose_algo`'s boolean. -/
def process_negotiate (c : Conn) (cs ms hs : Option (List String)) :
    Bool × Conn :=
  if c.state ≠ STATE_CONNECT then (false, c)
  else
    match cs, ms, hs with
    | some cs0, some ms0, some hs0 =>
      let r := choose_algo c cs0 ms0 hs0
      (r.1, { r.2 with
               sent := r.2.sent ++
                 [Out.cipherChosen r.2.cipher r.2.mode r.2.hash_function] })
    | _, _, _ => (false, c)

/-- Models `ClientHandler.get_key` (lines 288-310): no state check, no
try/except.  A missing `pub_key` (`None.encode()`), a malformed PEM
(`load_pem_public_key`) or a failing exchange/derivation raises and the
exception escapes `on_frame`; on success the derived key is stored and
`True` returned. -/
def get_key (ext : Ext) (c : Conn) (pk : Option String) : HRes :=
  match pk with
  | none => HRes.exc c
  | some s =>
    match ext.loadPem s with
    | none => HRes.exc c
    | some k =>
      match ext.derive k with
      | none => HRes.exc c
      | some kb => HRes.ret true { c with key := some kb }

/-- The uniform failure path of `on_frame` (lines 132-144) taken when a
handler returns `False`: send the generic `ERROR` frame, close any open
file handle, enter `STATE_CLOSE`, close the transport. -/
def fatal (c : Conn) : Conn :=
  { c with
     sent := c.sent ++ [Out.errMsg]
     file := none
     state := STATE_CLOSE
     transportOpen := false }

/-- The type-tag dispatch of `on_frame` (lines 116-131).  `dh none`
raises at line 120 (`.get` on `None`); an absent `type` key raises at
line 130 (`message['type']` in the log call); any other unrecognized
type yields `ret = False`. -/
def dispatch (ext : Ext) (c : Conn) (m : JMsg) : HRes :=
  match m with
  | JMsg.dh none => HRes.exc c
  | JMsg.dh (some pk) => get_key ext c pk
  | JMsg.openM fn => let r := process_open c fn; HRes.ret r.1 r.2
  | JMsg.dataM p => let r := process_data ext c p; HRes.ret r.1 r.2
  | JMsg.closeM => let r := process_close c; HRes.ret r.1 r.2
  | JMsg.negotiate cs ms hs =>
      let r := process_negotiate c cs ms hs; HRes.ret r.1 r.2
  | JMsg.invalid none => HRes.exc c
  | JMsg.invalid (some _) => HRes.ret false c

/-- Models `ClientHandler.on_frame` (lines 100-144).  A JSON parse failure is
caught and only closes the transport (no error frame, no cleanup, no
state change); a shape failure raises out of the method; otherwise the
message is dispatched and a `False` result triggers `fatal`. -/
def on_frame (ext : Ext) (c : Conn) (frame : List Char) : Res :=
  match ext.parse frame with
  | FrameVal.badJson => Res.ret { c with transportOpen := false }
  | FrameVal.badShape => Res.exc c
  | FrameVal.msg m =>
    match dispatch ext c m with
    | HRes.exc c2 => Res.exc c2
    | HRes.ret b c2 => if b then Res.ret c2 else Res.ret (fatal c2)

/-- Index of the first occurrence of the delimiter `"\r\n"`
(`self.buffer.find('\r\n')`, with `none` for `-1`). -/
def findDelim : List Char → Option Nat
  | [] => none
  | [_] => none
  | a :: b :: rest =>
    if a = '\r' ∧ b = '\n' then some 0
    else Option.map (fun n => n + 1) (findDelim (b :: rest))

/-- Python whitespace for `str.strip()`. -/
def isSpace (ch : Char) : Bool :=
  ch = ' ' || ch = '\t' || ch = '\n' || ch = '\r' || ch = '\x0b' || ch = '\x0c'

/-- Models `str.strip()`: remove leading and trailing whitespace. -/
def strip (l : List Char) : List Char :=
  List.reverse (List.dropWhile isSpace (List.reverse (List.dropWhile isSpace l)))

/-- The frame-extraction loop of `data_received` (lines 85-92), run to
completion on a buffer: every delimiter-terminated frame is stripped and
collected, and the trailing delimiter-free remainder is returned.  The
fuel argument only drives structural recursion; each step consumes at
least two characters, so `buf.length` fuel is always enough. -/
def extractAux : Nat → List Char → List (List Char) × List Char
  | 0, buf => ([], buf)
  | Nat.succ fuel, buf =>
    match findDelim buf with
    | none => ([], buf)
    | some i =>
      let r := extractAux fuel (buf.drop (i + 2))
      (strip (buf.take (i + 2)) :: r.1, r.2)

/-- All frames extractable from a buffer, and the leftover partial frame. -/
def extractFrames (buf : List Char) : List (List Char) × List Char :=
  extractAux buf.length buf

/-- Result of one `data_received` call (or of a run of calls): the
leftover buffer with the connection, or an exception escaping the
callback (which makes asyncio abort the connection). -/
inductive DRes where
  | ret (buf : List Char) (c : Conn)
  | exc (buf : List Char) (c : Conn)
  deriving DecidableEq

/-- The frame loop of `data_received` (lines 85-92): repeatedly extract
the next delimiter-terminated frame and hand it to `on_frame`.  The
methods called by `on_frame` never touch `self.buffer`, so the buffer
is threaded separately.  An exception escaping `on_frame` aborts the
loop with the buffer as already shortened. -/
def processAux (ext : Ext) : Nat → List Char → Conn → DRes
  | 0, buf, c => DRes.ret buf c
  | Nat.succ fuel, buf, c =>
    match findDelim buf with
    | none => DRes.ret buf c
    | some i =>
      let frame := strip (buf.take (i + 2))
      let rest := buf.drop (i + 2)
      match on_frame ext c frame with
      | Res.exc c2 => DRes.exc rest c2
      | Res.ret c2 => processAux ext fuel rest c2

/-- Models `ClientHandler.data_received` (lines 71-97): append the chunk to the
buffer, process every complete frame, then apply the oversized-buffer
guard (`len > 4096*1024*1024`: discard the buffer and close the
transport). -/
def data_received (ext : Ext) (buf : List Char) (c : Conn)
    (chunk : List Char) : DRes :=
  let nbuf := buf ++ chunk
  match processAux ext nbuf.length nbuf c with
  | DRes.exc b c2 => DRes.exc b c2
  | DRes.ret b c2 =>
    if BUFLIMIT < b.length then DRes.ret [] { c2 with transportOpen := false }
    else DRes.ret b c2

/-- Delivering a sequence of byte chunks to the connection, one
`data_received` call per chunk; an escaped exception stops the run
(asyncio aborts the transport on a failing `data_received`). -/
def runChunks (ext : Ext) : List Char → Conn → List (List Char) → DRes
  | buf, c, [] => DRes.ret buf c
  | buf, c, ch :: rest =>
    match data_received ext buf c ch with
    | DRes.exc b c2 => DRes.exc b c2
    | DRes.ret b c2 => runChunks ext b c2 rest

/-- Processing a list of already-extracted frames through `on_frame`. -/
def runFrames (ext : Ext) : Conn → List (List Char) → Res
  | c, [] => Res.ret c
  | c, f :: fs =>
    match on_frame ext c f with
    | Res.exc c2 => Res.exc c2
    | Res.ret c2 => runFrames ext c2 fs

/-- The connection state carried by either result of `on_frame`. -/
def connOf : Res → Conn
  | Res.ret c => c
  | Res.exc c => c

/-- The sessions a connection can actually be in between processed
frames: the fresh post-`connection_made` session, and everything
`on_frame` can produce from a reachable session (both on normal return
and at the point an exception escapes). -/
inductive ReachableConn (ext : Ext) : Conn → Prop where
  | init (stdir : String) (fs0 : FS) :
      ReachableConn ext (initialConn ext stdir fs0)
  | step (c : Conn) (f : List Char) (h : ReachableConn ext c) :
      ReachableConn ext (connOf (on_frame ext c f))

/-- An empty file system for concrete runs. -/
def fsEmpty : FS := { dirs := [], files := [] }

/-- A concrete instantiation of the external collaborators, used to
evaluate the model on closed inputs: a small frame table for the parser
and toy values for the cryptographic calls. -/
def extEx : Ext :=
  { parse := fun f =>
      if f = "fBAD".data then FrameVal.badJson
      else if f = "fSHAPE".data then FrameVal.badShape
      else if f = "fNOTYPE".data then FrameVal.msg (JMsg.invalid none)
      else if f = "fFOO".data then FrameVal.msg (JMsg.invalid (some "FOO"))
      else if f = "fOPEN".data then FrameVal.msg (JMsg.openM (some "a.txt"))
      else if f = "fDATA1".data then FrameVal.msg (JMsg.dataM (some "AA"))
      else if f = "fDATA2".data then FrameVal.msg (JMsg.dataM (some "BB"))
      else if f = "fCLOSE".data then FrameVal.msg JMsg.closeM
      else if f = "fDH".data then FrameVal.msg (JMsg.dh (some (some "GOODPEM")))
      else if f = "fDHBAD".data then FrameVal.msg (JMsg.dh (some (some "BADPEM")))
      else if f = "fNEG1".data then
        FrameVal.msg (JMsg.negotiate (some ["AES", "ChaCha20"])
          (some ["CBC", "GCM"]) (some ["SHA-256", "SHA-512"]))
      else if f = "fNEG2".data then
        FrameVal.msg (JMsg.negotiate (some ["DES"]) (some ["CBC"])
          (some ["SHA-256"]))
      else FrameVal.badJson
    b64 := fun p =>
      if p = "AA" then some [10, 11]
      else if p = "BB" then some [12]
      else none
    loadPem := fun s => if s = "GOODPEM" then some 7 else none
    derive := fun k => some [k]
    p := 23
    g := 5
    pubPem := "PEM" }

/-- POSIX resolution of a single separator-free path component against a
root directory given as its component list: `.` denotes the root
itself, `..` its parent, anything else a child entry of the root. -/
def resolveUnder (root : List String) (name : String) : List String :=
  if name = ".." then root.dropLast
  else if name = "." then root
  else root ++ [name]

/-- Whether a resolved path is still at or below the given root
directory (the root's components are a prefix of the path's). -/
def staysUnder (root res : List String) : Bool :=
  res.take root.length = root

/-- The session after a successful `OPEN` of `a.txt` (reached by one
frame from the fresh session): `STATE_OPEN` with the file handle
present. -/
def connAfterOpen : Conn :=
  connOf (on_frame extEx (initialConn extEx "files" fsEmpty) "fOPEN".data)

/-- The session after one successful negotiation (still in
`STATE_CONNECT`, with the chosen triple stored). -/
def connAfterNeg : Conn :=
  connOf (on_frame extEx (initialConn extEx "files" fsEmpty) "fNEG1".data)

/-- A fresh session configured with storage root `store` on an empty
file system (the directory `store` does not exist). -/
def connC5 : Conn := initialConn extEx "store" fsEmpty

/-- The file-handle invariant: the session holds an open handle exactly
in states `STATE_OPEN` and `STATE_DATA`. -/
def handleInv (c : Conn) : Prop :=
  c.file.isSome = true ↔ (c.state = STATE_OPEN ∨ c.state = STATE_DATA)

end SecureComms

namespace SecureComms

/-- C6: the negotiation choice selects each category independently by fixed
priority — ChaCha20 over AES, GCM over CBC, SHA-512 over SHA-256 — fails
exactly when a category has no supported candidate, assigns no later
category after a failure, yields (ChaCha20, GCM, SHA-512) on the offered
sets of the spec's example, and with no supported cipher fails before
choosing any mode or digest. -/
theorem claim_C6 (c : Conn) (cs ms hs : List String) :
    ((choose_algo c cs ms hs).1 = true ↔
      (("ChaCha20" ∈ cs ∨ "AES" ∈ cs) ∧ ("GCM" ∈ ms ∨ "CBC" ∈ ms) ∧
        ("SHA-512" ∈ hs ∨ "SHA-256" ∈ hs))) ∧
    ((choose_algo c cs ms hs).2.cipher =
      if "ChaCha20" ∈ cs then some "ChaCha20"
      else if "AES" ∈ cs then some "AES" else c.cipher) ∧
    ((choose_algo c cs ms hs).2.mode =
      if "ChaCha20" ∈ cs ∨ "AES" ∈ cs then
        (if "GCM" ∈ ms then some "GCM"
         else if "CBC" ∈ ms then some "CBC" else c.mode)
      else c.mode) ∧
    ((choose_algo c cs ms hs).2.hash_function =
      if ("ChaCha20" ∈ cs ∨ "AES" ∈ cs) ∧ ("GCM" ∈ ms ∨ "CBC" ∈ ms) then
        (if "SHA-512" ∈ hs then some "SHA-512"
         else if "SHA-256" ∈ hs then some "SHA-256" else c.hash_function)
      else c.hash_function) ∧
    (choose_algo c ["AES", "ChaCha20"] ["CBC", "GCM"] ["SHA-256", "SHA-512"] =
      (true, { c with cipher := some "ChaCha20", mode := some "GCM",
                      hash_function := some "SHA-512" })) ∧
    (∀ ms0 hs0, choose_algo c ["DES"] ms0 hs0 = (false, c)) := by
  refine ⟨?_, ?_, ?_, ?_, ?_, ?_⟩ <;>
    by_cases h1 : "ChaCha20" ∈ cs <;> by_cases h2 : "AES" ∈ cs <;>
    by_cases h3 : "GCM" ∈ ms <;> by_cases h4 : "CBC" ∈ ms <;>
    by_cases h5 : "SHA-512" ∈ hs <;> by_cases h6 : "SHA-256" ∈ hs <;>
    simp [choose_algo, h1, h2, h3, h4, h5, h6]

/-- C8 counterexample: the requested name `../` sanitizes to `..`, which,
resolved against the storage root, names the root's parent — the claim's
"never escapes the storage root" fails for this input. -/
theorem claim_C8_cex :
    sanitize "../" = ".." ∧
    staysUnder ["files"] (resolveUnder ["files"] (sanitize "../")) = false := by
  decide

/-- C8 (amended): sanitization keeps only word characters and dots, so the
result contains no path separator; joined under any storage root it stays
at or below the root except when the sanitized name is exactly `..`
(produced e.g. by the input `../`), which names the root's parent. -/
theorem claim_C8_amended (s : String) (root : List String)
    (h : sanitize s ≠ "..") :
    (∀ ch ∈ (sanitize s).data, isWordChar ch = true ∨ ch = '.') ∧
    '/' ∉ (sanitize s).data ∧ '\\' ∉ (sanitize s).data ∧
    staysUnder root (resolveUnder root (sanitize s)) = true := by
  refine ⟨?_, ?_, ?_, ?_⟩
  · intro ch hch
    have := List.of_mem_filter (p := fun ch => isWordChar ch || ch = '.') hch
    rcases Bool.or_eq_true_iff.mp this with h1 | h1
    · exact Or.inl h1
    · exact Or.inr (by simpa using h1)
  · intro hmem
    have := List.of_mem_filter (p := fun ch => isWordChar ch || ch = '.') hmem
    simp [isWordChar] at this
  · intro hmem
    have := List.of_mem_filter (p := fun ch => isWordChar ch || ch = '.') hmem
    simp [isWordChar] at this
  · unfold resolveUnder staysUnder
    rw [if_neg h]
    by_cases hdot : sanitize s = "."
    · rw [if_pos hdot]
      simp
    · rw [if_neg hdot]
      simp

end SecureComms

namespace SecureComms

/-- C9: a DATA message outside states OPEN and DATA (in particular before
any successful OPEN) and an OPEN message outside state CONNECT (in
particular a second OPEN) are rejected through the uniform fatal path,
and the file system is left untouched — no file is created. -/
theorem claim_C9 (ext : Ext) (cD cO : Conn) (fD fO : List Char)
    (p : Option String) (fn : Option String)
    (hD : ext.parse fD = FrameVal.msg (JMsg.dataM p))
    (hO : ext.parse fO = FrameVal.msg (JMsg.openM fn))
    (hsD : cD.state ≠ STATE_OPEN ∧ cD.state ≠ STATE_DATA)
    (hsO : cO.state ≠ STATE_CONNECT) :
    on_frame ext cD fD = Res.ret (fatal cD) ∧ (fatal cD).fs = cD.fs ∧
    on_frame ext cO fO = Res.ret (fatal cO) ∧ (fatal cO).fs = cO.fs := by
  refine ⟨?_, rfl, ?_, rfl⟩
  · simp [on_frame, dispatch, process_data, hD, hsD.1, hsD.2]
  · simp [on_frame, dispatch, process_open, hO, hsO]

/-- C9 witness: a DATA frame on the fresh session (state CONNECT) and an
OPEN frame on a session that already opened a file are both rejected
fatally with the file system unchanged. -/
theorem claim_C9_witness :
    (extEx.parse "fDATA1".data = FrameVal.msg (JMsg.dataM (some "AA")) ∧
     extEx.parse "fOPEN".data = FrameVal.msg (JMsg.openM (some "a.txt")) ∧
     ((initialConn extEx "files" fsEmpty).state ≠ STATE_OPEN ∧
      (initialConn extEx "files" fsEmpty).state ≠ STATE_DATA) ∧
     connAfterOpen.state ≠ STATE_CONNECT) ∧
    (on_frame extEx (initialConn extEx "files" fsEmpty) "fDATA1".data =
       Res.ret (fatal (initialConn extEx "files" fsEmpty)) ∧
     (fatal (initialConn extEx "files" fsEmpty)).fs =
       (initialConn extEx "files" fsEmpty).fs ∧
     on_frame extEx connAfterOpen "fOPEN".data = Res.ret (fatal connAfterOpen) ∧
     (fatal connAfterOpen).fs = connAfterOpen.fs) :=
  ⟨by decide,
   claim_C9 extEx (initialConn extEx "files" fsEmpty) connAfterOpen
     "fDATA1".data "fOPEN".data (some "AA") (some "a.txt")
     (by decide) (by decide) (by decide) (by decide)⟩

/-- C5: evaluation at the failing input — with the storage root configured
as `store` on an empty file system, `process_open` creates the hard-coded
directory `files` instead of the configured root, does not create `store`,
and the open fails; the claim requires the configured storage root to be
created. -/
theorem claim_C5 :
    process_open connC5 (some "a.txt") =
      (false, { connC5 with fs := { dirs := ["files"], files := [] } }) ∧
    "files" ∈ (process_open connC5 (some "a.txt")).2.fs.dirs ∧
    "store" ∉ (process_open connC5 (some "a.txt")).2.fs.dirs := by decide

/-- C3: evaluation of the divergence — a DH_KEY_EXCHANGE whose public-key
material fails to load, or whose derivation step fails, makes the
exception escape `on_frame` uncaught with the session unchanged: no error
frame, no cleanup, no transport close — the claim requires the failure to
be caught and turned into the fatal protocol outcome. -/
theorem claim_C3 (ext : Ext) (c : Conn) (f : List Char) (pk : String)
    (hP : ext.parse f = FrameVal.msg (JMsg.dh (some (some pk))))
    (hbad : ext.loadPem pk = none ∨
      ∃ k, ext.loadPem pk = some k ∧ ext.derive k = none) :
    on_frame ext c f = Res.exc c := by
  rcases hbad with hbad | ⟨k, hk, hd⟩
  · simp [on_frame, dispatch, get_key, hP, hbad]
  · simp [on_frame, dispatch, get_key, hP, hk, hd]

/-- C3 witness: a concrete DH_KEY_EXCHANGE frame with malformed PEM makes
the exception escape `on_frame` with the session unchanged. -/
theorem claim_C3_witness :
    (extEx.parse "fDHBAD".data = FrameVal.msg (JMsg.dh (some (some "BADPEM"))) ∧
     (extEx.loadPem "BADPEM" = none ∨
       ∃ k, extEx.loadPem "BADPEM" = some k ∧ extEx.derive k = none)) ∧
    on_frame extEx connAfterOpen "fDHBAD".data = Res.exc connAfterOpen :=
  ⟨⟨by decide, Or.inl (by decide)⟩,
   claim_C3 extEx connAfterOpen "fDHBAD".data "BADPEM" (by decide)
     (Or.inl (by decide))⟩

/-- C2 counterexample: a frame that is not well-formed JSON, processed in a
session holding an open file, leaves the state non-terminal, the file
handle open and sends no error frame — only the transport is closed; the
claim requires the uniform fail-closed handling. -/
theorem claim_C2_cex :
    on_frame extEx connAfterOpen "fBAD".data =
      Res.ret { connAfterOpen with transportOpen := false } ∧
    (connOf (on_frame extEx connAfterOpen "fBAD".data)).state ≠ STATE_CLOSE ∧
    (connOf (on_frame extEx connAfterOpen "fBAD".data)).file.isSome = true ∧
    Out.errMsg ∉ (connOf (on_frame extEx connAfterOpen "fBAD".data)).sent := by
  decide

/-- C2 (amended): a frame that is not well-formed JSON only closes the
transport (no error frame, no cleanup, no state change); a message whose
JSON shape prevents reading a string type, and a message lacking the type
key entirely, raise uncaught exceptions out of frame processing with the
session unchanged; only a message with a parseable but unrecognized type
string receives the uniform fail-closed handling. -/
theorem claim_C2_amended (ext : Ext) (c : Conn) (fJ fS fT fU : List Char)
    (tv : String)
    (hJ : ext.parse fJ = FrameVal.badJson)
    (hS : ext.parse fS = FrameVal.badShape)
    (hT : ext.parse fT = FrameVal.msg (JMsg.invalid none))
    (hU : ext.parse fU = FrameVal.msg (JMsg.invalid (some tv))) :
    on_frame ext c fJ = Res.ret { c with transportOpen := false } ∧
    on_frame ext c fS = Res.exc c ∧
    on_frame ext c fT = Res.exc c ∧
    on_frame ext c fU = Res.ret (fatal c) := by
  refine ⟨?_, ?_, ?_, ?_⟩ <;> simp [on_frame, dispatch, hJ, hS, hT, hU]

/-- C2 witness: the four amended behaviors at concrete frames on a session
holding an open file. -/
theorem claim_C2_witness :
    (extEx.parse "fBAD".data = FrameVal.badJson ∧
     extEx.parse "fSHAPE".data = FrameVal.badShape ∧
     extEx.parse "fNOTYPE".data = FrameVal.msg (JMsg.invalid none) ∧
     extEx.parse "fFOO".data = FrameVal.msg (JMsg.invalid (some "FOO"))) ∧
    (on_frame extEx connAfterOpen "fBAD".data =
       Res.ret { connAfterOpen with transportOpen := false } ∧
     on_frame extEx connAfterOpen "fSHAPE".data = Res.exc connAfterOpen ∧
     on_frame extEx connAfterOpen "fNOTYPE".data = Res.exc connAfterOpen ∧
     on_frame extEx connAfterOpen "fFOO".data = Res.ret (fatal connAfterOpen)) :=
  ⟨by decide,
   claim_C2_amended extEx connAfterOpen "fBAD".data "fSHAPE".data
     "fNOTYPE".data "fFOO".data "FOO" (by decide) (by decide) (by decide)
     (by decide)⟩

end SecureComms

namespace SecureComms

/-- C4 counterexample: a DH_KEY_EXCHANGE with valid key material processed
in state OPEN is handled successfully — it is not rejected as fatal, no
error frame is sent and the state is unchanged; the claim says it is
accepted only while in CONNECT. -/
theorem claim_C4_cex :
    connAfterOpen.state = STATE_OPEN ∧
    on_frame extEx connAfterOpen "fDH".data =
      Res.ret { connAfterOpen with key := some [7] } ∧
    (connOf (on_frame extEx connAfterOpen "fDH".data)).state = STATE_OPEN ∧
    Out.errMsg ∉ (connOf (on_frame extEx connAfterOpen "fDH".data)).sent := by
  decide

theorem choose_algo_state (c : Conn) (cs ms hs : List String) :
    (choose_algo c cs ms hs).2.state = c.state := by
  by_cases h1 : "ChaCha20" ∈ cs <;> by_cases h2 : "AES" ∈ cs <;>
    by_cases h3 : "GCM" ∈ ms <;> by_cases h4 : "CBC" ∈ ms <;>
    by_cases h5 : "SHA-512" ∈ hs <;> by_cases h6 : "SHA-256" ∈ hs <;>
    simp [choose_algo, h1, h2, h3, h4, h5, h6]

/-- C4 (amended): NEGOTIATE is accepted only in state CONNECT — in any
other state it is rejected as fatal — and never changes the session
state; DH_KEY_EXCHANGE has no state guard: with well-formed key material
it succeeds in every state, leaving the state unchanged. -/
theorem claim_C4_amended (ext : Ext) (c : Conn) (fN fD : List Char)
    (cs ms hs : Option (List String)) (pk : String) (k : Nat) (kb : List Nat)
    (hN : ext.parse fN = FrameVal.msg (JMsg.negotiate cs ms hs))
    (hD : ext.parse fD = FrameVal.msg (JMsg.dh (some (some pk))))
    (hload : ext.loadPem pk = some k) (hder : ext.derive k = some kb) :
    (c.state ≠ STATE_CONNECT → on_frame ext c fN = Res.ret (fatal c)) ∧
    (process_negotiate c cs ms hs).2.state = c.state ∧
    on_frame ext c fD = Res.ret { c with key := some kb } := by
  refine ⟨?_, ?_, ?_⟩
  · intro hs0
    simp [on_frame, dispatch, process_negotiate, hN, hs0]
  · unfold process_negotiate
    split
    · rfl
    · split
      · simp [choose_algo_state]
      · rfl
  · simp [on_frame, dispatch, get_key, hD, hload, hder]

end SecureComms

namespace SecureComms

/-- C4 witness: on the post-OPEN session, NEGOTIATE is rejected fatally
while DH_KEY_EXCHANGE succeeds with the state unchanged. -/
theorem claim_C4_amended_witness :
    (extEx.parse "fNEG1".data = FrameVal.msg (JMsg.negotiate
        (some ["AES", "ChaCha20"]) (some ["CBC", "GCM"])
        (some ["SHA-256", "SHA-512"])) ∧
     extEx.parse "fDH".data = FrameVal.msg (JMsg.dh (some (some "GOODPEM"))) ∧
     extEx.loadPem "GOODPEM" = some 7 ∧ extEx.derive 7 = some [7]) ∧
    ((connAfterOpen.state ≠ STATE_CONNECT →
        on_frame extEx connAfterOpen "fNEG1".data =
          Res.ret (fatal connAfterOpen)) ∧
     (process_negotiate connAfterOpen (some ["AES", "ChaCha20"])
        (some ["CBC", "GCM"]) (some ["SHA-256", "SHA-512"])).2.state =
       connAfterOpen.state ∧
     on_frame extEx connAfterOpen "fDH".data =
       Res.ret { connAfterOpen with key := some [7] }) :=
  ⟨by decide,
   claim_C4_amended extEx connAfterOpen "fNEG1".data "fDH".data
     (some ["AES", "ChaCha20"]) (some ["CBC", "GCM"])
     (some ["SHA-256", "SHA-512"]) "GOODPEM" 7 [7]
     (by decide) (by decide) (by decide) (by decide)⟩

/-- C7 counterexample: after one successful negotiation the session is
still in CONNECT, and a second NEGOTIATE that fails in its first (cipher)
category still echoes the full stale triple from the earlier call — not
"exactly the categories chosen before the failing one" (none). -/
theorem claim_C7_cex :
    connAfterNeg.state = STATE_CONNECT ∧
    connAfterNeg.cipher = some "ChaCha20" ∧
    (process_negotiate connAfterNeg (some ["DES"]) (some ["CBC"])
        (some ["SHA-256"])).1 = false ∧
    (process_negotiate connAfterNeg (some ["DES"]) (some ["CBC"])
        (some ["SHA-256"])).2.sent =
      connAfterNeg.sent ++
        [Out.cipherChosen (some "ChaCha20") (some "GCM") (some "SHA-512")] := by
  decide

/-- C7 (amended): in CONNECT, a NEGOTIATE missing any candidate list fails
with no CIPHER_CHOSEN response (fatal at the dispatcher); with all three
lists present a CIPHER_CHOSEN is always sent whose fields are the
session's stored selections — the categories selected in this call up to
the failing one, the remaining fields keeping whatever an earlier
negotiation stored (initially none) — and a selection failure is then
fatal at the dispatcher (terminal state, transport closed). -/
theorem claim_C7_amended (ext : Ext) (c : Conn) (f : List Char)
    (cs ms hs : Option (List String))
    (hP : ext.parse f = FrameVal.msg (JMsg.negotiate cs ms hs))
    (h0 : c.state = STATE_CONNECT) :
    (cs = none ∨ ms = none ∨ hs = none →
      on_frame ext c f = Res.ret (fatal c)) ∧
    (∀ cs0 ms0 hs0, cs = some cs0 → ms = some ms0 → hs = some hs0 →
      ((connOf (on_frame ext c f)).sent =
         c.sent ++ [Out.cipherChosen
             (if "ChaCha20" ∈ cs0 then some "ChaCha20"
              else if "AES" ∈ cs0 then some "AES" else c.cipher)
             (if "ChaCha20" ∈ cs0 ∨ "AES" ∈ cs0 then
                (if "GCM" ∈ ms0 then some "GCM"
                 else if "CBC" ∈ ms0 then some "CBC" else c.mode)
              else c.mode)
             (if ("ChaCha20" ∈ cs0 ∨ "AES" ∈ cs0) ∧
                 ("GCM" ∈ ms0 ∨ "CBC" ∈ ms0) then
                (if "SHA-512" ∈ hs0 then some "SHA-512"
                 else if "SHA-256" ∈ hs0 then some "SHA-256"
                 else c.hash_function)
              else c.hash_function)] ++
           (if ("ChaCha20" ∈ cs0 ∨ "AES" ∈ cs0) ∧
               ("GCM" ∈ ms0 ∨ "CBC" ∈ ms0) ∧
               ("SHA-512" ∈ hs0 ∨ "SHA-256" ∈ hs0) then []
            else [Out.errMsg])) ∧
      (¬ (("ChaCha20" ∈ cs0 ∨ "AES" ∈ cs0) ∧
          ("GCM" ∈ ms0 ∨ "CBC" ∈ ms0) ∧
          ("SHA-512" ∈ hs0 ∨ "SHA-256" ∈ hs0)) →
        (connOf (on_frame ext c f)).state = STATE_CLOSE ∧
        (connOf (on_frame ext c f)).transportOpen = false)) := by
  constructor
  · intro hmiss
    have hpn : process_negotiate c cs ms hs = (false, c) := by
      rcases hmiss with rfl | rfl | rfl
      · simp [process_negotiate, h0]
      · rcases cs with _ | cs0 <;> simp [process_negotiate, h0]
      · rcases cs with _ | cs0 <;> rcases ms with _ | ms0 <;>
          simp [process_negotiate, h0]
    simp [on_frame, dispatch, hP, hpn]
  · rintro cs0 ms0 hs0 rfl rfl rfl
    by_cases h1 : "ChaCha20" ∈ cs0 <;> by_cases h2 : "AES" ∈ cs0 <;>
      by_cases h3 : "GCM" ∈ ms0 <;> by_cases h4 : "CBC" ∈ ms0 <;>
      by_cases h5 : "SHA-512" ∈ hs0 <;> by_cases h6 : "SHA-256" ∈ hs0 <;>
      simp [on_frame, dispatch, process_negotiate, choose_algo, fatal, connOf,
        hP, h0, h1, h2, h3, h4, h5, h6]

end SecureComms

namespace SecureComms

theorem on_frame_badJson (ext : Ext) (c : Conn) (f : List Char)
    (h : ext.parse f = FrameVal.badJson) :
    on_frame ext c f = Res.ret { c with transportOpen := false } := by
  unfold on_frame
  rw [h]

theorem on_frame_badShape (ext : Ext) (c : Conn) (f : List Char)
    (h : ext.parse f = FrameVal.badShape) :
    on_frame ext c f = Res.exc c := by
  unfold on_frame
  rw [h]

theorem on_frame_msg (ext : Ext) (c : Conn) (f : List Char) (m : JMsg)
    (h : ext.parse f = FrameVal.msg m) :
    on_frame ext c f =
      (match dispatch ext c m with
       | HRes.exc c2 => Res.exc c2
       | HRes.ret b c2 => if b then Res.ret c2 else Res.ret (fatal c2)) := by
  unfold on_frame
  rw [h]

theorem fatal_inv (c : Conn) : handleInv (fatal c) := by
  simp [handleInv, fatal, STATE_CLOSE, STATE_OPEN, STATE_DATA]

theorem choose_algo_file (c : Conn) (cs ms hs : List String) :
    (choose_algo c cs ms hs).2.file = c.file := by
  by_cases h1 : "ChaCha20" ∈ cs <;> by_cases h2 : "AES" ∈ cs <;>
    by_cases h3 : "GCM" ∈ ms <;> by_cases h4 : "CBC" ∈ ms <;>
    by_cases h5 : "SHA-512" ∈ hs <;> by_cases h6 : "SHA-256" ∈ hs <;>
    simp [choose_algo, h1, h2, h3, h4, h5, h6]

theorem process_open_true (c : Conn) (fn : Option String) (c2 : Conn)
    (h : process_open c fn = (true, c2)) :
    c2.file.isSome = true ∧ c2.state = STATE_OPEN := by
  simp only [process_open] at h
  split at h
  · simp at h
  · split at h
    · simp at h
    · split at h
      · simp at h
      · simp only [Prod.mk.injEq] at h
        obtain ⟨-, h⟩ := h
        subst h
        simp

theorem process_data_true (ext : Ext) (c : Conn) (p : Option String)
    (c2 : Conn) (h : process_data ext c p = (true, c2)) :
    c2.file.isSome = true ∧ c2.state = STATE_DATA := by
  simp only [process_data] at h
  split at h
  · rename_i h12
    (repeat' split at h) <;>
      · rw [Prod.mk.injEq] at h
        obtain ⟨hb, h⟩ := h
        first
          | exact absurd hb Bool.false_ne_true
          | (subst h
             constructor <;> simp_all)
  · simp at h

theorem process_negotiate_true (c : Conn) (cs ms hs : Option (List String))
    (c2 : Conn) (h : process_negotiate c cs ms hs = (true, c2)) :
    c2.file = c.file ∧ c2.state = c.state := by
  unfold process_negotiate at h
  split at h
  · simp at h
  · split at h
    · simp only [Prod.mk.injEq] at h
      obtain ⟨-, h⟩ := h
      subst h
      simp [choose_algo_file, choose_algo_state]
    · simp at h

theorem dispatch_inv (ext : Ext) (c : Conn) (m : JMsg) (h : handleInv c) :
    (∀ c2, dispatch ext c m = HRes.exc c2 → c2 = c) ∧
    (∀ c2, dispatch ext c m = HRes.ret true c2 → handleInv c2) := by
  cases m with
  | dh pk =>
    rcases pk with _ | pk
    · simp [dispatch]
    · rcases pk with _ | s
      · simp [dispatch, get_key]
      · unfold dispatch get_key
        cases hl : ext.loadPem s with
        | none => simp [hl]
        | some k =>
          cases hd : ext.derive k with
          | none => simp [hl, hd]
          | some kb =>
            refine ⟨by simp [hl, hd], ?_⟩
            intro c2 hc2
            simp only [hl, hd, HRes.ret.injEq] at hc2
            rw [← hc2.2]
            simpa [handleInv] using h
  | openM fn =>
    refine ⟨by simp [dispatch], ?_⟩
    intro c2 hc2
    simp only [dispatch, HRes.ret.injEq] at hc2
    have := process_open_true c fn c2 (Prod.ext hc2.1 hc2.2)
    simp [handleInv, this.1, this.2]
  | dataM p =>
    refine ⟨by simp [dispatch], ?_⟩
    intro c2 hc2
    simp only [dispatch, HRes.ret.injEq] at hc2
    have := process_data_true ext c p c2 (Prod.ext hc2.1 hc2.2)
    simp [handleInv, this.1, this.2]
  | closeM =>
    refine ⟨by simp [dispatch], ?_⟩
    intro c2 hc2
    simp only [dispatch, process_close, HRes.ret.injEq] at hc2
    rw [← hc2.2]
    simp [handleInv, STATE_CLOSE, STATE_OPEN, STATE_DATA]
  | negotiate cs ms hs =>
    refine ⟨by simp [dispatch], ?_⟩
    intro c2 hc2
    simp only [dispatch, HRes.ret.injEq] at hc2
    have := process_negotiate_true c cs ms hs c2 (Prod.ext hc2.1 hc2.2)
    unfold handleInv
    rw [this.1, this.2]
    exact h
  | invalid tv =>
    rcases tv with _ | tv <;> simp [dispatch]

theorem handleInv_step (ext : Ext) (c : Conn) (f : List Char)
    (h : handleInv c) : handleInv (connOf (on_frame ext c f)) := by
  cases hp : ext.parse f with
  | badJson =>
    rw [on_frame_badJson ext c f hp]
    exact h
  | badShape =>
    rw [on_frame_badShape ext c f hp]
    exact h
  | msg m =>
    rw [on_frame_msg ext c f m hp]
    cases hd : dispatch ext c m with
    | exc c2 =>
      have hc : c2 = c := (dispatch_inv ext c m h).1 c2 hd
      subst hc
      exact h
    | ret b c2 =>
      cases b with
      | true => exact (dispatch_inv ext c m h).2 c2 hd
      | false => exact fatal_inv c2

/-- C10: on every reachable session the file-handle invariant holds — the
session holds an open handle iff its state is OPEN or DATA — so states
CONNECT and CLOSE never hold a handle and a DATA write in a legal state
always targets a present open handle. -/
theorem claim_C10 (ext : Ext) (c : Conn) (h : ReachableConn ext c) :
    handleInv c ∧
    ((c.state = STATE_OPEN ∨ c.state = STATE_DATA) → ∃ p, c.file = some p) := by
  have hinv : handleInv c := by
    induction h with
    | init stdir fs0 =>
      simp [handleInv, initialConn, STATE_CONNECT, STATE_OPEN, STATE_DATA]
    | step c0 f h0 ih => exact handleInv_step ext c0 f ih
  refine ⟨hinv, fun hs => ?_⟩
  have := hinv.mpr hs
  cases hf : c.file with
  | none => simp [hf] at this
  | some p => exact ⟨p, rfl⟩

/-- C10 witness: the invariant at the initial session. -/
theorem claim_C10_witness :
    (handleInv (initialConn extEx "files" fsEmpty) ∧
      (((initialConn extEx "files" fsEmpty).state = STATE_OPEN ∨
        (initialConn extEx "files" fsEmpty).state = STATE_DATA) →
        ∃ p, (initialConn extEx "files" fsEmpty).file = some p)) :=
  claim_C10 extEx (initialConn extEx "files" fsEmpty)
    (ReachableConn.init "files" fsEmpty)

end SecureComms

namespace SecureComms

theorem findDelim_bound : ∀ (l : List Char) (i : Nat),
    findDelim l = some i → i + 2 ≤ l.length := by
  intro l
  induction l with
  | nil => intro i h; simp [findDelim] at h
  | cons a tl ih =>
    intro i h
    cases tl with
    | nil => simp [findDelim] at h
    | cons b rest =>
      simp only [findDelim] at h
      split at h
      · obtain rfl : (0 : Nat) = i := Option.some.inj h
        simp [List.length_cons]
      · cases hf : findDelim (b :: rest) with
        | none => rw [hf] at h; simp at h
        | some j =>
          rw [hf] at h
          simp only [Option.map_some'] at h
          obtain rfl : j + 1 = i := Option.some.inj h
          have := ih j hf
          simp only [List.length_cons] at this ⊢
          omega

theorem findDelim_append_some : ∀ (l t : List Char) (i : Nat),
    findDelim l = some i → findDelim (l ++ t) = some i := by
  intro l
  induction l with
  | nil => intro t i h; simp [findDelim] at h
  | cons a tl ih =>
    intro t i h
    cases tl with
    | nil => simp [findDelim] at h
    | cons b rest =>
      simp only [findDelim] at h
      rw [List.cons_append, List.cons_append]
      simp only [findDelim]
      split at h
      · rename_i hrn
        rw [if_pos hrn]
        exact h
      · rename_i hrn
        rw [if_neg hrn]
        cases hf : findDelim (b :: rest) with
        | none => rw [hf] at h; simp at h
        | some j =>
          rw [hf] at h
          have h2 := ih t j hf
          rw [List.cons_append] at h2
          rw [h2]
          exact h

theorem extractAux_nil : ∀ fuel, extractAux fuel [] = ([], []) := by
  intro fuel
  cases fuel <;> simp [extractAux, findDelim]

theorem extractAux_fuel : ∀ (f1 f2 : Nat) (buf : List Char),
    buf.length ≤ f1 → buf.length ≤ f2 → extractAux f1 buf = extractAux f2 buf := by
  intro f1
  induction f1 with
  | zero =>
    intro f2 buf h1 h2
    have hb : buf = [] := List.length_eq_zero.mp (Nat.le_zero.mp h1)
    subst hb
    rw [extractAux_nil, extractAux_nil]
  | succ f ih =>
    intro f2 buf h1 h2
    cases f2 with
    | zero =>
      have hb : buf = [] := List.length_eq_zero.mp (Nat.le_zero.mp h2)
      subst hb
      rw [extractAux_nil, extractAux_nil]
    | succ g =>
      cases hd : findDelim buf with
      | none => simp only [extractAux, hd]
      | some i =>
        have hb := findDelim_bound buf i hd
        simp only [extractAux, hd]
        rw [ih g (buf.drop (i + 2)) (by simp only [List.length_drop]; omega)
          (by simp only [List.length_drop]; omega)]

theorem extractFrames_none (buf : List Char) (h : findDelim buf = none) :
    extractFrames buf = ([], buf) := by
  unfold extractFrames
  cases hl : buf.length with
  | zero =>
    have hb : buf = [] := List.length_eq_zero.mp hl
    subst hb
    rw [extractAux_nil]
  | succ n => simp [extractAux, h]

theorem extractFrames_cons (buf : List Char) (i : Nat)
    (h : findDelim buf = some i) :
    extractFrames buf =
      (strip (buf.take (i + 2)) :: (extractFrames (buf.drop (i + 2))).1,
       (extractFrames (buf.drop (i + 2))).2) := by
  have hb := findDelim_bound buf i h
  obtain ⟨n, hn⟩ : ∃ n, buf.length = n + 1 := ⟨buf.length - 1, by omega⟩
  unfold extractFrames
  rw [hn]
  simp only [extractAux, h]
  rw [extractAux_fuel n (buf.drop (i + 2)).length (buf.drop (i + 2))
    (by simp only [List.length_drop]; omega) le_rfl]

theorem extract_rest_noDelim_aux : ∀ (n : Nat) (buf : List Char),
    buf.length ≤ n → findDelim (extractFrames buf).2 = none := by
  intro n
  induction n with
  | zero =>
    intro buf h
    have hb : buf = [] := List.length_eq_zero.mp (Nat.le_zero.mp h)
    subst hb
    rw [extractFrames_none [] rfl]
    rfl
  | succ n ih =>
    intro buf h
    cases hd : findDelim buf with
    | none => rw [extractFrames_none buf hd]; exact hd
    | some i =>
      rw [extractFrames_cons buf i hd]
      have hb := findDelim_bound buf i hd
      exact ih (buf.drop (i + 2)) (by simp only [List.length_drop]; omega)

theorem extract_rest_noDelim (buf : List Char) :
    findDelim (extractFrames buf).2 = none :=
  extract_rest_noDelim_aux buf.length buf le_rfl

theorem extract_rest_len_aux : ∀ (n : Nat) (buf : List Char),
    buf.length ≤ n → (extractFrames buf).2.length ≤ buf.length := by
  intro n
  induction n with
  | zero =>
    intro buf h
    have hb : buf = [] := List.length_eq_zero.mp (Nat.le_zero.mp h)
    subst hb
    rw [extractFrames_none [] rfl]
  | succ n ih =>
    intro buf h
    cases hd : findDelim buf with
    | none => rw [extractFrames_none buf hd]
    | some i =>
      rw [extractFrames_cons buf i hd]
      dsimp only
      have hb := findDelim_bound buf i hd
      have := ih (buf.drop (i + 2)) (by simp only [List.length_drop]; omega)
      simp only [List.length_drop] at this
      omega

theorem extract_rest_len (buf : List Char) :
    (extractFrames buf).2.length ≤ buf.length :=
  extract_rest_len_aux buf.length buf le_rfl

theorem extract_append_aux : ∀ (n : Nat) (x y : List Char), x.length ≤ n →
    extractFrames (x ++ y) =
      ((extractFrames x).1 ++ (extractFrames ((extractFrames x).2 ++ y)).1,
       (extractFrames ((extractFrames x).2 ++ y)).2) := by
  intro n
  induction n with
  | zero =>
    intro x y h
    have hb : x = [] := List.length_eq_zero.mp (Nat.le_zero.mp h)
    subst hb
    rw [extractFrames_none [] rfl]
    simp
  | succ n ih =>
    intro x y h
    cases hd : findDelim x with
    | none =>
      rw [extractFrames_none x hd]
      simp
    | some i =>
      have hb := findDelim_bound x i hd
      rw [extractFrames_cons x i hd,
        extractFrames_cons (x ++ y) i (findDelim_append_some x y i hd),
        List.take_append_of_le_length hb, List.drop_append_of_le_length hb,
        ih (x.drop (i + 2)) y (by simp only [List.length_drop]; omega)]
      simp

theorem extract_append (x y : List Char) :
    extractFrames (x ++ y) =
      ((extractFrames x).1 ++ (extractFrames ((extractFrames x).2 ++ y)).1,
       (extractFrames ((extractFrames x).2 ++ y)).2) :=
  extract_append_aux x.length x y le_rfl

end SecureComms

namespace SecureComms

theorem runFrames_append (ext : Ext) (c : Conn) (a b : List (List Char)) :
    runFrames ext c (a ++ b) =
      (match runFrames ext c a with
       | Res.exc c2 => Res.exc c2
       | Res.ret c2 => runFrames ext c2 b) := by
  induction a generalizing c with
  | nil => simp [runFrames]
  | cons f fs ih =>
    rw [List.cons_append]
    simp only [runFrames]
    cases on_frame ext c f with
    | exc c2 => rfl
    | ret c2 => exact ih c2

theorem processAux_ret (ext : Ext) : ∀ (fuel : Nat) (buf : List Char)
    (c c2 : Conn), buf.length ≤ fuel →
    runFrames ext c (extractFrames buf).1 = Res.ret c2 →
    processAux ext fuel buf c = DRes.ret (extractFrames buf).2 c2 := by
  intro fuel
  induction fuel with
  | zero =>
    intro buf c c2 h hr
    have hb : buf = [] := List.length_eq_zero.mp (Nat.le_zero.mp h)
    subst hb
    rw [extractFrames_none [] rfl] at hr ⊢
    simp only [runFrames] at hr
    obtain rfl : c = c2 := Res.ret.inj hr
    rfl
  | succ fuel ih =>
    intro buf c c2 h hr
    cases hd : findDelim buf with
    | none =>
      rw [extractFrames_none buf hd] at hr ⊢
      simp only [runFrames] at hr
      obtain rfl : c = c2 := Res.ret.inj hr
      simp only [processAux, hd]
    | some i =>
      rw [extractFrames_cons buf i hd] at hr ⊢
      dsimp only at hr ⊢
      simp only [runFrames] at hr
      have hb := findDelim_bound buf i hd
      simp only [processAux, hd]
      cases hof : on_frame ext c (strip (buf.take (i + 2))) with
      | exc c3 =>
        rw [hof] at hr
        exact absurd hr (by simp)
      | ret c3 =>
        rw [hof] at hr
        exact ih (buf.drop (i + 2)) c3 c2
          (by simp only [List.length_drop]; omega) hr

end SecureComms

namespace SecureComms

theorem data_received_ret (ext : Ext) (buf : List Char) (c c2 : Conn)
    (chunk : List Char)
    (hr : runFrames ext c (extractFrames (buf ++ chunk)).1 = Res.ret c2)
    (hlim : ¬ BUFLIMIT < (extractFrames (buf ++ chunk)).2.length) :
    data_received ext buf c chunk =
      DRes.ret (extractFrames (buf ++ chunk)).2 c2 := by
  simp only [data_received]
  rw [processAux_ret ext (buf ++ chunk).length (buf ++ chunk) c c2 le_rfl hr]
  exact if_neg hlim

theorem runChunks_ret (ext : Ext) : ∀ (chunks : List (List Char))
    (buf : List Char) (c c2 : Conn), findDelim buf = none →
    (buf ++ chunks.flatten).length ≤ BUFLIMIT →
    runFrames ext c (extractFrames (buf ++ chunks.flatten)).1 = Res.ret c2 →
    runChunks ext buf c chunks =
      DRes.ret (extractFrames (buf ++ chunks.flatten)).2 c2 := by
  intro chunks
  induction chunks with
  | nil =>
    intro buf c c2 hnd hlim hr
    rw [List.flatten_nil, List.append_nil] at hr ⊢
    rw [extractFrames_none buf hnd] at hr ⊢
    simp only [runFrames] at hr
    obtain rfl : c = c2 := Res.ret.inj hr
    rfl
  | cons ch rest ih =>
    intro buf c c2 hnd hlim hr
    have hassoc : buf ++ (ch :: rest).flatten = (buf ++ ch) ++ rest.flatten := by
      rw [List.flatten_cons, List.append_assoc]
    rw [hassoc] at hr hlim ⊢
    rw [extract_append (buf ++ ch) rest.flatten] at hr ⊢
    dsimp only at hr ⊢
    rw [runFrames_append] at hr
    cases hrf : runFrames ext c (extractFrames (buf ++ ch)).1 with
    | exc c3 =>
      rw [hrf] at hr
      exact absurd hr (by simp)
    | ret c3 =>
      rw [hrf] at hr
      have hr1len := extract_rest_len (buf ++ ch)
      have hguard : ¬ BUFLIMIT < (extractFrames (buf ++ ch)).2.length := by
        simp only [List.length_append] at hlim hr1len ⊢
        omega
      simp only [runChunks]
      rw [data_received_ret ext buf c c3 ch hrf hguard]
      exact ih (extractFrames (buf ++ ch)).2 c3 c2
        (extract_rest_noDelim (buf ++ ch))
        (by simp only [List.length_append] at hlim hr1len ⊢; omega) hr

end SecureComms

namespace SecureComms

theorem lookupF_setF (files : List (String × List Nat)) (k : String)
    (v : List Nat) : lookupF (setF files k v) k = some v := by
  induction files with
  | nil => simp [setF, lookupF]
  | cons kv rest ih =>
    obtain ⟨k0, v0⟩ := kv
    by_cases h : k0 = k <;> simp [setF, lookupF, h, ih]

theorem lookupF_appendF (files : List (String × List Nat)) (k : String)
    (w v : List Nat) (h : lookupF files k = some w) :
    lookupF (appendF files k v) k = some (w ++ v) := by
  unfold appendF
  rw [h]
  exact lookupF_setF files k (w ++ v)

theorem process_data_step (ext : Ext) (c : Conn) (p : String) (b : List Nat)
    (path : String) (hb : ext.b64 p = some b) (hfile : c.file = some path)
    (hst : c.state = STATE_OPEN ∨ c.state = STATE_DATA) :
    process_data ext c (some p) =
      (true, { c with
                state := STATE_DATA
                fs := { c.fs with files := appendF c.fs.files path b } }) := by
  rcases hst with h1 | h1
  · simp [process_data, h1, hb, hfile, STATE_OPEN, STATE_DATA, STATE_CONNECT]
  · have heta : ({ c with
        state := STATE_DATA
        fs := { c.fs with files := appendF c.fs.files path b } } : Conn) =
      { c with fs := { c.fs with files := appendF c.fs.files path b } } := by
      rw [← h1]
    rw [heta]
    simp [process_data, h1, hb, hfile, STATE_OPEN, STATE_DATA, STATE_CONNECT]

end SecureComms

namespace SecureComms

theorem process_open_success (c : Conn) (fn0 : String)
    (h0 : c.state = STATE_CONNECT)
    (hdir : c.storage_dir ∈ c.fs.dirs ∨ c.storage_dir = "files")
    (hname : ¬(sanitize fn0 = "" ∨ sanitize fn0 = "." ∨ sanitize fn0 = "..")) :
    ∃ fs2 : FS, process_open c (some fn0) =
      (true, { c with
                fs := fs2
                file := some (osPathJoin c.storage_dir (sanitize fn0))
                sent := c.sent ++ [Out.okMsg]
                file_name := some (sanitize fn0)
                file_path := some (osPathJoin c.storage_dir (sanitize fn0))
                state := STATE_OPEN }) ∧
      lookupF fs2.files (osPathJoin c.storage_dir (sanitize fn0)) = some [] := by
  by_cases hm : "files" ∈ c.fs.dirs
  · have hdir1 : c.storage_dir ∈ c.fs.dirs := by
      rcases hdir with h | h
      · exact h
      · rw [h]; exact hm
    refine ⟨{ c.fs with
        files := setF c.fs.files (osPathJoin c.storage_dir (sanitize fn0)) [] },
      ?_, lookupF_setF _ _ _⟩
    simp [process_open, h0, hm, fsOpen, hdir1, hname, STATE_CONNECT]
  · have hdir1 : c.storage_dir ∈ "files" :: c.fs.dirs := by
      rcases hdir with h | h
      · exact List.mem_cons_of_mem _ h
      · rw [h]; exact List.mem_cons_self _ _
    refine ⟨{ dirs := "files" :: c.fs.dirs
              files := setF c.fs.files
                (osPathJoin c.storage_dir (sanitize fn0)) [] },
      ?_, lookupF_setF _ _ _⟩
    simp [process_open, h0, hm, fsOpen, hdir1, hname, STATE_CONNECT]

theorem run_data_close (ext : Ext) : ∀ (payloads : List String)
    (bs : List (List Nat)) (frames : List (List Char)) (c : Conn)
    (path : String) (acc : List Nat),
    frames.map ext.parse =
      payloads.map (fun p => FrameVal.msg (JMsg.dataM (some p))) ++
        [FrameVal.msg JMsg.closeM] →
    payloads.map ext.b64 = bs.map some →
    (c.state = STATE_OPEN ∨ c.state = STATE_DATA) →
    c.file = some path →
    lookupF c.fs.files path = some acc →
    ∃ c2, runFrames ext c frames = Res.ret c2 ∧
      lookupF c2.fs.files path = some (acc ++ bs.flatten) := by
  intro payloads
  induction payloads with
  | nil =>
    intro bs frames c path acc hf hb hst hfile hacc
    have hbs : bs = [] := by
      cases bs with
      | nil => rfl
      | cons b bs2 => simp at hb
    subst hbs
    cases frames with
    | nil => simp at hf
    | cons f fs =>
      simp only [List.map_nil, List.nil_append, List.map_cons] at hf
      obtain ⟨hf1, hf2⟩ := List.cons.inj hf
      have hfs : fs = [] := by
        cases fs with
        | nil => rfl
        | cons g gs => simp at hf2
      subst hfs
      simp only [runFrames]
      rw [on_frame_msg ext c f JMsg.closeM hf1]
      exact ⟨{ c with transportOpen := false, file := none, state := STATE_CLOSE },
        rfl, by simpa using hacc⟩
  | cons p ps ih =>
    intro bs frames c path acc hf hb hst hfile hacc
    cases bs with
    | nil => simp at hb
    | cons b bs2 =>
      simp only [List.map_cons] at hb
      obtain ⟨hb1, hb2⟩ := List.cons.inj hb
      cases frames with
      | nil => simp at hf
      | cons f fs =>
        simp only [List.map_cons, List.cons_append] at hf
        obtain ⟨hf1, hf2⟩ := List.cons.inj hf
        simp only [runFrames]
        rw [on_frame_msg ext c f (JMsg.dataM (some p)) hf1]
        have hdisp : dispatch ext c (JMsg.dataM (some p)) =
            HRes.ret true { c with
              state := STATE_DATA
              fs := { c.fs with files := appendF c.fs.files path b } } := by
          simp [dispatch, process_data_step ext c p b path hb1 hfile hst]
        rw [hdisp]
        obtain ⟨c2, hrun, hlook⟩ := ih bs2 fs
          ({ c with
              state := STATE_DATA
              fs := { c.fs with files := appendF c.fs.files path b } })
          path (acc ++ b) hf2 hb2 (Or.inr rfl) hfile
          (lookupF_appendF c.fs.files path acc b hacc)
        refine ⟨c2, hrun, ?_⟩
        rw [hlook]
        simp [List.append_assoc]

end SecureComms

namespace SecureComms

theorem on_frame_open_success (ext : Ext) (c : Conn) (f : List Char)
    (fn0 : String)
    (hp : ext.parse f = FrameVal.msg (JMsg.openM (some fn0)))
    (h0 : c.state = STATE_CONNECT)
    (hdir : c.storage_dir ∈ c.fs.dirs ∨ c.storage_dir = "files")
    (hname : ¬(sanitize fn0 = "" ∨ sanitize fn0 = "." ∨ sanitize fn0 = "..")) :
    ∃ c1, on_frame ext c f = Res.ret c1 ∧
      c1.state = STATE_OPEN ∧
      c1.file = some (osPathJoin c.storage_dir (sanitize fn0)) ∧
      lookupF c1.fs.files (osPathJoin c.storage_dir (sanitize fn0)) =
        some [] := by
  obtain ⟨fs2, hopen, hlook0⟩ := process_open_success c fn0 h0 hdir hname
  refine ⟨{ c with
      fs := fs2
      file := some (osPathJoin c.storage_dir (sanitize fn0))
      sent := c.sent ++ [Out.okMsg]
      file_name := some (sanitize fn0)
      file_path := some (osPathJoin c.storage_dir (sanitize fn0))
      state := STATE_OPEN }, ?_, rfl, rfl, hlook0⟩
  rw [on_frame_msg ext c f _ hp]
  simp [dispatch, hopen]

/-- C1: for every chunking of a byte stream whose extracted frames parse
to a legal session OPEN(fn), DATA(p1) … DATA(pn), CLOSE — with the
payloads base64-decodable, the storage root available so the open
succeeds, and the total size within the buffer guard — the run from the
fresh session succeeds and the stored file's content is exactly the
concatenation of the decoded payloads in arrival order.  The conclusion
depends only on the concatenation of the chunks, so the result is
independent of how message boundaries align with chunk boundaries, and a
frame split across chunks is processed exactly once. -/
theorem claim_C1 (ext : Ext) (stdir : String) (fs0 : FS)
    (chunks : List (List Char)) (fn : String) (payloads : List String)
    (bs : List (List Nat))
    (hframes : ((extractFrames chunks.flatten).1).map ext.parse =
      FrameVal.msg (JMsg.openM (some fn)) ::
        (payloads.map (fun p => FrameVal.msg (JMsg.dataM (some p))) ++
          [FrameVal.msg JMsg.closeM]))
    (hdec : payloads.map ext.b64 = bs.map some)
    (hdir : stdir ∈ fs0.dirs ∨ stdir = "files")
    (hname : ¬(sanitize fn = "" ∨ sanitize fn = "." ∨ sanitize fn = ".."))
    (hsize : chunks.flatten.length ≤ BUFLIMIT) :
    ∃ c2, runChunks ext [] (initialConn ext stdir fs0) chunks =
        DRes.ret (extractFrames chunks.flatten).2 c2 ∧
      lookupF c2.fs.files (osPathJoin stdir (sanitize fn)) =
        some bs.flatten := by
  cases hfr : (extractFrames chunks.flatten).1 with
  | nil => rw [hfr] at hframes; simp at hframes
  | cons f0 fr =>
    rw [hfr] at hframes
    simp only [List.map_cons] at hframes
    obtain ⟨hf0, hfr2⟩ := List.cons.inj hframes
    obtain ⟨c1, hof, hst1, hfile1, hlook1⟩ :=
      on_frame_open_success ext (initialConn ext stdir fs0) f0 fn hf0 rfl
        hdir hname
    obtain ⟨c2, hrun, hlook⟩ := run_data_close ext payloads bs fr c1
      (osPathJoin stdir (sanitize fn)) [] hfr2 hdec (Or.inl hst1) hfile1 hlook1
    have hrunAll : runFrames ext (initialConn ext stdir fs0)
        (extractFrames chunks.flatten).1 = Res.ret c2 := by
      rw [hfr]
      simp only [runFrames]
      rw [hof]
      exact hrun
    have hmain := runChunks_ret ext chunks [] (initialConn ext stdir fs0) c2
      rfl (by simpa using hsize) (by simpa using hrunAll)
    exact ⟨c2, by simpa using hmain, by simpa using hlook⟩

end SecureComms

namespace SecureComms

/-- C1 witness: a concrete three-chunk delivery whose first frame is split
across two chunks stores the file `files/a.txt` with the two decoded
payloads concatenated. -/
theorem claim_C1_witness :
    (((extractFrames (["fOP".data, "EN\r\nfDATA1\r".data,
        "\nfDATA2\r\nfCLOSE\r\n".data] : List (List Char)).flatten).1.map
          extEx.parse =
        FrameVal.msg (JMsg.openM (some "a.txt")) ::
          ((["AA", "BB"] : List String).map
              (fun p => FrameVal.msg (JMsg.dataM (some p))) ++
            [FrameVal.msg JMsg.closeM])) ∧
      ((["AA", "BB"] : List String).map extEx.b64 =
        ([[10, 11], [12]] : List (List Nat)).map some) ∧
      ("files" ∈ fsEmpty.dirs ∨ ("files" : String) = "files") ∧
      (¬(sanitize "a.txt" = "" ∨ sanitize "a.txt" = "." ∨
          sanitize "a.txt" = "..")) ∧
      ((["fOP".data, "EN\r\nfDATA1\r".data,
        "\nfDATA2\r\nfCLOSE\r\n".data] : List (List Char)).flatten.length ≤
        BUFLIMIT)) ∧
    ∃ c2, runChunks extEx [] (initialConn extEx "files" fsEmpty)
        ["fOP".data, "EN\r\nfDATA1\r".data, "\nfDATA2\r\nfCLOSE\r\n".data] =
        DRes.ret (extractFrames (["fOP".data, "EN\r\nfDATA1\r".data,
          "\nfDATA2\r\nfCLOSE\r\n".data] : List (List Char)).flatten).2 c2 ∧
      lookupF c2.fs.files (osPathJoin "files" (sanitize "a.txt")) =
        some (([[10, 11], [12]] : List (List Nat)).flatten) :=
  ⟨⟨by decide, by decide, Or.inr rfl, by decide, by decide⟩,
   claim_C1 extEx "files" fsEmpty
     ["fOP".data, "EN\r\nfDATA1\r".data, "\nfDATA2\r\nfCLOSE\r\n".data]
     "a.txt" ["AA", "BB"] [[10, 11], [12]]
     (by decide) (by decide) (Or.inr rfl) (by decide) (by decide)⟩

end SecureComms

namespace SecureComms

/-- C7 witness: a NEGOTIATE offering only unsupported ciphers on the fresh
session is answered and then handled fatally. -/
theorem claim_C7_amended_witness :
    ((extEx.parse "fNEG2".data = FrameVal.msg (JMsg.negotiate (some ["DES"])
        (some ["CBC"]) (some ["SHA-256"]))) ∧
      (initialConn extEx "files" fsEmpty).state = STATE_CONNECT) ∧
    (connOf (on_frame extEx (initialConn extEx "files" fsEmpty)
        "fNEG2".data)).state = STATE_CLOSE ∧
    (connOf (on_frame extEx (initialConn extEx "files" fsEmpty)
        "fNEG2".data)).transportOpen = false := by
  refine ⟨⟨by decide, by decide⟩, ?_⟩
  have h := claim_C7_amended extEx (initialConn extEx "files" fsEmpty)
    "fNEG2".data (some ["DES"]) (some ["CBC"]) (some ["SHA-256"])
    (by decide) (by decide)
  exact (h.2 ["DES"] ["CBC"] ["SHA-256"] rfl rfl rfl).2 (by decide)

theorem claim_C8_amended_witness :
    (sanitize "../../etc/passwd" ≠ "..") ∧
    ((∀ ch ∈ (sanitize "../../etc/passwd").data,
        isWordChar ch = true ∨ ch = '.') ∧
      '/' ∉ (sanitize "../../etc/passwd").data ∧
      '\\' ∉ (sanitize "../../etc/passwd").data ∧
      staysUnder ["files"]
        (resolveUnder ["files"] (sanitize "../../etc/passwd")) = true) :=
  ⟨by decide, claim_C8_amended "../../etc/passwd" ["files"] (by decide)⟩

end SecureComms
